import Mathlib

set_option maxHeartbeats 1000000

/-!
Verification development for the file-rename validator (`rename_code.py`):
a shallow embedding of the spreadsheet data model, the pending-change merge
engine (`save_pending_changes_to_excel`), the placeholder detector, the
drive path resolver's segment normalisation, the schema validation and the
review-index clamp, with theorems settling the documented properties.
Strings are modelled with ASCII-level `lower`/`strip` semantics, which agree
with Python's on the data this program handles.
-/

/-- One spreadsheet row, with the seven required columns of the workbook. -/
structure Record where
  type : String
  originalName : String
  proposedNewName : String
  fullPath : String
  createdDate : String
  timestamp : String
  action : String
deriving Repr, DecidableEq

/-- A single iteration of the merge loop of `save_pending_changes_to_excel`
(lines 468-472): build a boolean mask `df["Full Path"] == full_path`; if it
matches nothing, fall back to the mask `df["Original Name"] == full_path`;
then assign `new_name` to `"Proposed New Name"` on every masked row. -/
def applyChange (df : List Record) (k v : String) : List Record :=
  if df.any (fun r => r.fullPath == k) then
    df.map (fun r => if r.fullPath == k then { r with proposedNewName := v } else r)
  else
    df.map (fun r => if r.originalName == k then { r with proposedNewName := v } else r)

/-- The whole merge loop: `for full_path, new_name in pending_changes.items()`,
applied in insertion order over the pending-changes association list. -/
def applyPendingChanges (df : List Record) (pcs : List (String × String)) : List Record :=
  pcs.foldl (fun d kv => applyChange d kv.1 kv.2) df

/-- Session/storage state relevant to the flush cycle.  `df` is
`st.session_state.df`; `pendingChanges` is the in-memory dict (as an
insertion-ordered association list); `localFile` is the content of the local
working file `temp_<brand>_<stem>_updated.xlsx` (if it exists);
`workingPathSet` records whether `st.session_state.working_excel_path` is
set (it always points at that one local file); `remote` is the content of
the brand-scoped `_updated` blob in object storage. -/
structure AppState where
  df : List Record
  pendingChanges : List (String × String)
  totalSaves : Nat
  localFile : Option (List Record)
  workingPathSet : Bool
  remote : Option (List Record)

/-- `get_working_excel_path` (lines 443-455): if a save has happened,
prefer the re-downloaded brand-scoped `_updated` blob; otherwise fall back
to the local working file when its path is set; otherwise nothing. -/
def getWorkingDf (s : AppState) : Option (List Record) :=
  let fromLocal := if s.workingPathSet then s.localFile else none
  if s.totalSaves > 0 then
    match s.remote with
    | some d => some d
    | none => fromLocal
  else fromLocal

/-- `save_pending_changes_to_excel` (lines 457-501) with the outcome of the
blob upload made explicit.  The merged frame is written to the local working
file before the upload is attempted; on upload success the blob is
overwritten, the working path is set, the save counter incremented and the
merged frame returned; on failure `None` is returned and nothing else in
the session is touched. -/
def flush (s : AppState) (uploadOk : Bool) : Option (List Record) × AppState :=
  let base := match getWorkingDf s with
    | some d => d
    | none => s.df
  let merged := applyPendingChanges base s.pendingChanges
  let s1 : AppState := { s with localFile := some merged }
  if uploadOk then
    (some merged,
      { s1 with workingPathSet := true, remote := some merged, totalSaves := s1.totalSaves + 1 })
  else
    (none, s1)

/-- The "Save All & Upload" button handler (lines 752-757): call the flush
and clear the pending-changes map only when it returned a filename. -/
def saveAllHandler (s : AppState) (uploadOk : Bool) : AppState :=
  match flush s uploadOk with
  | (some _, s1) => { s1 with pendingChanges := [] }
  | (none, s1) => s1

/-- Staging an edit (`st.session_state.pending_changes[row['Full Path']] = new_proposed`):
Python-dict semantics, update in place when the key exists, append otherwise. -/
def stage (s : AppState) (k v : String) : AppState :=
  { s with pendingChanges :=
      if s.pendingChanges.any (fun kv => kv.1 == k) then
        s.pendingChanges.map (fun kv => if kv.1 == k then (k, v) else kv)
      else
        s.pendingChanges ++ [(k, v)] }

/-- Session state right after the first load from the original workbook
(lines 529-542): the frame is saved as the initial local working copy, no
save has happened yet, and no `_updated` blob exists. -/
def initialState (df : List Record) : AppState :=
  { df := df, pendingChanges := [], totalSaves := 0,
    localFile := some df, workingPathSet := true, remote := none }

/-- Scenario for the multi-cycle merge property: stage `A ↦ x`, flush
successfully, stage `B ↦ y`, flush successfully again. -/
def twoFlushCycle (df : List Record) (A x B y : String) : AppState :=
  saveAllHandler (stage (saveAllHandler (stage (initialState df) A x) true) B y) true

/-- Split a character list at every occurrence of `c`, keeping empty pieces,
exactly like Python's `str.split(c)` for a one-character separator. -/
def splitCharList (c : Char) : List Char → List (List Char)
  | [] => [[]]
  | ch :: rest =>
    let r := splitCharList c rest
    if ch == c then [] :: r
    else
      match r with
      | [] => [[ch]]
      | s :: ss => (ch :: s) :: ss

/-- Python's `s.split(c)` for a one-character separator. -/
def splitChar (c : Char) (s : String) : List String :=
  (splitCharList c s.toList).map (fun l => String.mk l)

/-- ASCII lower-casing of a string, Python's `str.lower()` on this data. -/
def lowerStr (s : String) : String :=
  String.mk (s.toList.map Char.toLower)

/-- Python's `str.strip()`: drop leading and trailing whitespace. -/
def stripStr (s : String) : String :=
  String.mk (((s.toList.dropWhile Char.isWhitespace).reverse.dropWhile
    Char.isWhitespace).reverse)

/-- Python's `str.strip("/")`: drop leading and trailing slashes. -/
def stripSlashes (s : String) : String :=
  String.mk (((s.toList.dropWhile (fun ch => ch == '/')).reverse.dropWhile
    (fun ch => ch == '/')).reverse)

/-- `raw_path.replace("\\", "/")` for the one-character pattern. -/
def normalizeSlashes (s : String) : String :=
  String.mk (s.toList.map (fun ch => if ch == '\\' then '/' else ch))

/-- Line 353: `[seg for seg in raw_path.replace("\\", "/").strip("/").split("/") if seg]`. -/
def pathSegments (rawPath : String) : List String :=
  (splitChar '/' (stripSlashes (normalizeSlashes rawPath))).filter (fun seg => seg != "")

/-- Lines 358-362: first index at which the lowered base segment sequence
occurs as a contiguous slice of the lowered path segments, returned as the
position just past that occurrence (`start_idx = i + len(base_low)`). -/
def findStart (lowerExtra baseLow : List String) : Option Nat :=
  match (List.range lowerExtra.length).find?
      (fun i => (lowerExtra.drop i).take baseLow.length == baseLow) with
  | some i => some (i + baseLow.length)
  | none => none

/-- Line 364: `extra_segments[start_idx:] if start_idx is not None else extra_segments`. -/
def relativeSegments (rawPath : String) (base : List String) : List String :=
  let extra := pathSegments rawPath
  match findStart (extra.map lowerStr) (base.map lowerStr) with
  | some j => extra.drop j
  | none => extra

/-- Line 351: the hard-coded base segments of the drive tree. -/
def baseSegments : List String := ["Cog Culture Repository", "Clients", "Aarize Group"]

/-- Line 554: the seven placeholder tokens. -/
def placeholders : List String :=
  ["Brand", "Campaign", "Channel", "Asset", "Format", "Version", "Date"]

/-- Lines 555-557: a proposed name is invalid when any placeholder equals
any underscore segment case-insensitively. -/
def isInvalidName (phs : List String) (s : String) : Bool :=
  phs.any (fun ph => (splitChar '_' s).any (fun part => lowerStr ph == lowerStr part))

/-- Line 558: `invalid_rows = df[invalid_mask].reset_index(drop=True)`. -/
def detect (df : List Record) (phs : List String) : List Record :=
  df.filter (fun r => isInvalidName phs r.proposedNewName)

/-- Line 547: the required spreadsheet columns. -/
def required_cols : List String :=
  ["Type", "Original Name", "Proposed New Name", "Full Path", "Created Date",
   "Timestamp", "Action"]

/-- Line 548: `missing = [c for c in required_cols if c not in df.columns]`. -/
def missingCols (cols : List String) : List String :=
  required_cols.filter (fun c => !(cols.contains c))

/-- Outcome of the schema check: either the session halts with the missing
column names reported, or processing continues. -/
inductive LoadOutcome
  | halted (missing : List String)
  | continued
deriving Repr, DecidableEq

/-- Lines 549-551: `if missing: st.error(...); st.stop()`. -/
def validateColumns (cols : List String) : LoadOutcome :=
  let missing := missingCols cols
  if missing.isEmpty then LoadOutcome.continued else LoadOutcome.halted missing

/-- Line 651: the seven positional field names of the edit form. -/
def fields : List String :=
  ["Brand", "Campaign", "Channel", "Asset", "Format", "Version", "Date"]

/-- Lines 647-649: `parts = current_name.split("_")` padded with `""` while
shorter than 7. -/
def padTo7 (parts : List String) : List String :=
  parts ++ List.replicate (7 - parts.length) ""

/-- Line 656: the condition `current.strip().lower() == field.lower()` that
renders the segment as an editable input. -/
def isEditable (seg fld : String) : Bool :=
  lowerStr (stripStr seg) == lowerStr fld

/-- Lines 654-661: the seven parts collected by the edit loop; editable
positions take the user's input, locked positions keep the current segment. -/
def editedParts (currentName : String) (userInput : Nat → String) : List String :=
  let parts := padTo7 (splitChar '_' currentName)
  (List.range 7).map (fun i =>
    let cur := parts.getD i ""
    if isEditable cur (fields.getD i "") then userInput i else cur)

/-- Line 663: `new_proposed = "_".join(edited_parts)`. -/
def newProposed (currentName : String) (userInput : Nat → String) : String :=
  String.intercalate "_" (editedParts currentName userInput)

/-- Modelled from the claim's words for comparison with the code: editable
exactly when the raw segment is case-insensitively equal to the positional
field name (no whitespace stripping). -/
def claimEditable (seg fld : String) : Bool :=
  lowerStr seg == lowerStr fld

/-- The staged name as the claim's editability criterion would predict it. -/
def newProposedClaimed (currentName : String) (userInput : Nat → String) : String :=
  String.intercalate "_"
    ((List.range 7).map (fun i =>
      let cur := (padTo7 (splitChar '_' currentName)).getD i ""
      if claimEditable cur (fields.getD i "") then userInput i else cur))

/-- Lines 583-586: clamp the restored review index against the invalid-row
count, first from above, then from below. -/
def clampIndex (index : Int) (count : Nat) : Int :=
  let i1 := if index ≥ (count : Int) then (count : Int) - 1 else index
  if i1 < 0 then 0 else i1

/-- Sample row used by the concrete witnesses. -/
def rowA : Record :=
  { type := "File", originalName := "img_a.png",
    proposedNewName := "Brand_Camp_Ch_As_F_V_D",
    fullPath := "Clients/A/img_a.png", createdDate := "2024-01-01",
    timestamp := "t1", action := "Rename" }

/-- Second sample row used by the concrete witnesses. -/
def rowB : Record :=
  { type := "File", originalName := "img_b.png",
    proposedNewName := "Nike_Summer_IG_Post_jpg_v1_2024",
    fullPath := "Clients/B/img_b.png", createdDate := "2024-01-02",
    timestamp := "t2", action := "Rename" }

/-- Two sample rows sharing one full path, for the duplicate-key witness. -/
def rowDup1 : Record :=
  { type := "File", originalName := "dup1.png",
    proposedNewName := "Brand_C1_Ch_As_F_V_D",
    fullPath := "Clients/D/dup.png", createdDate := "2024-02-01",
    timestamp := "t3", action := "Rename" }

/-- Second of the two rows sharing one full path. -/
def rowDup2 : Record :=
  { type := "File", originalName := "dup2.png",
    proposedNewName := "Brand_C2_Ch_As_F_V_D",
    fullPath := "Clients/D/dup.png", createdDate := "2024-02-02",
    timestamp := "t4", action := "Rename" }

/-! ## Helper lemmas -/

theorem applyChange_pos (df : List Record) (k v : String)
    (h : ∃ r ∈ df, r.fullPath = k) :
    applyChange df k v =
      df.map (fun r => if r.fullPath == k then { r with proposedNewName := v } else r) := by
  unfold applyChange
  rw [if_pos]
  obtain ⟨r, hr, hk⟩ := h
  rw [List.any_eq_true]
  exact ⟨r, hr, by simp [hk]⟩

theorem applyChange_neg (df : List Record) (k v : String)
    (h : ∀ r ∈ df, r.fullPath ≠ k) :
    applyChange df k v =
      df.map (fun r => if r.originalName == k then { r with proposedNewName := v } else r) := by
  unfold applyChange
  rw [if_neg]
  simp only [List.any_eq_true, beq_iff_eq, not_exists]
  intro r
  intro hmem
  exact h r hmem.1 hmem.2

/-! ## Claim theorems -/

/-- C5: when the blob upload inside the flush fails, the flush returns the
error sentinel `none` and the in-memory pending-changes map is exactly what
it was before the flush (the caller clears it only on the success path), so
the same flush can be retried. -/
theorem C5_upload_failure_atomic (s : AppState) :
    (flush s false).1 = none ∧
    ((flush s false).2).pendingChanges = s.pendingChanges ∧
    (saveAllHandler s false).pendingChanges = s.pendingChanges ∧
    (saveAllHandler s true).pendingChanges = [] :=
  ⟨rfl, rfl, rfl, rfl⟩

/-- C10: for a non-empty invalid-row view the review index is clamped into
`[0, count-1]` before any row access: a too-large index becomes `count-1`,
a negative one becomes `0`, and the result is always in bounds. -/
theorem C10_index_clamp (index : Int) (count : Nat) (h : 0 < count) :
    0 ≤ clampIndex index count ∧
    clampIndex index count < (count : Int) ∧
    ((count : Int) ≤ index → clampIndex index count = (count : Int) - 1) ∧
    (index < 0 → clampIndex index count = 0) := by
  have hc : (1 : Int) ≤ (count : Int) := by exact_mod_cast h
  simp only [clampIndex]
  split_ifs with h1 h2 h3 <;>
    exact ⟨by omega, by omega, fun hi => by omega, fun hi => by omega⟩

/-- C10 witness: a stale index of 99 against 3 invalid rows is clamped to 2. -/
theorem C10_index_clamp_witness :
    0 ≤ clampIndex 99 3 ∧ clampIndex 99 3 < (3 : Int) ∧
    ((3 : Int) ≤ 99 → clampIndex 99 3 = (3 : Int) - 1) ∧
    ((99 : Int) < 0 → clampIndex 99 3 = 0) :=
  C10_index_clamp 99 3 (by decide)

/-- C7: loading halts, reporting exactly the missing column names, iff some
required column is absent; with all seven columns present processing
continues. -/
theorem C7_required_columns (cols : List String) :
    (∀ c, c ∈ missingCols cols ↔ c ∈ required_cols ∧ c ∉ cols) ∧
    (validateColumns cols = LoadOutcome.continued ↔ ∀ c ∈ required_cols, c ∈ cols) ∧
    (missingCols cols ≠ [] → validateColumns cols = LoadOutcome.halted (missingCols cols)) := by
  have hme : missingCols cols = [] ↔ ∀ c ∈ required_cols, c ∈ cols := by
    rw [missingCols, List.filter_eq_nil_iff]
    simp [List.elem_iff]
  refine ⟨?_, ?_, ?_⟩
  · intro c
    simp [missingCols, List.mem_filter, List.elem_iff]
  · rw [← hme]
    unfold validateColumns
    by_cases hm : missingCols cols = [] <;> simp [hm]
  · intro hm
    unfold validateColumns
    simp [List.isEmpty_iff, hm]

/-- C7 witness: a sheet having only a `Type` column halts with the other
six required columns reported missing. -/
theorem C7_required_columns_witness :
    validateColumns ["Type"] = LoadOutcome.halted (missingCols ["Type"]) :=
  (C7_required_columns ["Type"]).2.2 (by decide)

/-- C2: the invalid-row view is an order-preserving subsequence of the
dataset, and a record belongs to it iff some underscore-delimited segment of
its proposed name is case-insensitively exactly equal to some placeholder
(every segment is checked, not only the first seven). -/
theorem C2_placeholder_detect (df : List Record) (P : List String) :
    List.Sublist (detect df P) df ∧
    ∀ r, r ∈ detect df P ↔
      r ∈ df ∧ ∃ part ∈ splitChar '_' r.proposedNewName, ∃ ph ∈ P,
        lowerStr part = lowerStr ph := by
  constructor
  · exact List.filter_sublist df
  · intro r
    rw [detect, List.mem_filter]
    constructor
    · rintro ⟨hmem, hinv⟩
      refine ⟨hmem, ?_⟩
      rw [isInvalidName, List.any_eq_true] at hinv
      obtain ⟨ph, hph, hany⟩ := hinv
      rw [List.any_eq_true] at hany
      obtain ⟨part, hpart, hbeq⟩ := hany
      exact ⟨part, hpart, ph, hph, (beq_iff_eq.mp hbeq).symm⟩
    · rintro ⟨hmem, part, hpart, ph, hph, heq⟩
      refine ⟨hmem, ?_⟩
      rw [isInvalidName, List.any_eq_true]
      refine ⟨ph, hph, ?_⟩
      rw [List.any_eq_true]
      exact ⟨part, hpart, beq_iff_eq.mpr heq.symm⟩

theorem lookup_cons_pair (k k1 v1 : String) (rest : List (String × String)) :
    List.lookup k ((k1, v1) :: rest) = if k == k1 then some v1 else List.lookup k rest := by
  rw [List.lookup]
  rcases h : k == k1 <;> simp [h]

theorem lookup_none_of_not_mem_keys (k : String) (l : List (String × String))
    (h : k ∉ l.map Prod.fst) : List.lookup k l = none := by
  induction l with
  | nil => rfl
  | cons kv rest ih =>
    obtain ⟨k1, v1⟩ := kv
    simp only [List.map_cons, List.mem_cons, not_or] at h
    rw [lookup_cons_pair, if_neg, ih h.2]
    simp [h.1]

theorem applyPendingChanges_lookup (pcs : List (String × String)) (df : List Record)
    (hnd : (pcs.map Prod.fst).Nodup)
    (hm : ∀ kv ∈ pcs, ∃ r ∈ df, r.fullPath = kv.1) :
    applyPendingChanges df pcs =
      df.map (fun r =>
        match List.lookup r.fullPath pcs with
        | some v => { r with proposedNewName := v }
        | none => r) := by
  induction pcs generalizing df with
  | nil =>
    simp only [applyPendingChanges, List.foldl_nil]
    have : ∀ r ∈ df,
        (match List.lookup r.fullPath ([] : List (String × String)) with
          | some v => { r with proposedNewName := v }
          | none => r) = r := by
      intro r _
      rfl
    rw [List.map_eq_map_iff.mpr (by intro r hr; rw [this r hr]), List.map_id']
  | cons kv rest ih =>
    obtain ⟨k, v⟩ := kv
    have hk : ∃ r ∈ df, r.fullPath = k := hm (k, v) (List.mem_cons_self _ _)
    have hstep : applyPendingChanges df ((k, v) :: rest) =
        applyPendingChanges (applyChange df k v) rest := rfl
    simp only [List.map_cons] at hnd
    have hnd' : (rest.map Prod.fst).Nodup := hnd.of_cons
    have hknotin : k ∉ rest.map Prod.fst := (List.nodup_cons.mp hnd).1
    rw [hstep, applyChange_pos df k v hk]
    have hfpres : ∀ r : Record,
        ((if r.fullPath == k then { r with proposedNewName := v } else r)).fullPath
          = r.fullPath := by
      intro r
      by_cases hc : r.fullPath = k <;> simp [hc]
    have hm' : ∀ kv' ∈ rest,
        ∃ r ∈ df.map (fun r =>
          if r.fullPath == k then { r with proposedNewName := v } else r),
          r.fullPath = kv'.1 := by
      intro kv' hkv'
      obtain ⟨r, hr, hfp⟩ := hm kv' (List.mem_cons_of_mem _ hkv')
      refine ⟨if r.fullPath == k then { r with proposedNewName := v } else r,
        List.mem_map_of_mem _ hr, ?_⟩
      rw [hfpres r]
      exact hfp
    rw [ih (df.map _) hnd' hm', List.map_map]
    refine List.map_eq_map_iff.mpr ?_
    intro r _
    simp only [Function.comp_apply]
    by_cases hc : r.fullPath = k
    · have hnone : List.lookup k rest = none := lookup_none_of_not_mem_keys k rest hknotin
      simp [hc, lookup_cons_pair, hnone]
    · simp [lookup_cons_pair, beq_false_of_ne hc]

/-- C1: a successful flush against a persisted working copy `wc`, with
pending changes staging distinct full paths that each match an existing
record, produces exactly `wc` with each staged record's proposed name set
to its staged value and everything else (fields and unstaged records)
unchanged, in the same order. -/
theorem C1_flush_merge (s : AppState) (wc : List Record)
    (hwc : getWorkingDf s = some wc)
    (hnd : (s.pendingChanges.map Prod.fst).Nodup)
    (hm : ∀ kv ∈ s.pendingChanges, ∃ r ∈ wc, r.fullPath = kv.1) :
    (flush s true).1 = some (wc.map (fun r =>
      match List.lookup r.fullPath s.pendingChanges with
      | some v => { r with proposedNewName := v }
      | none => r)) := by
  have hred : (flush s true).1 = some (applyPendingChanges
      (match getWorkingDf s with | some d => d | none => s.df) s.pendingChanges) := rfl
  rw [hred]
  simp only [hwc]
  rw [applyPendingChanges_lookup s.pendingChanges wc hnd hm]

/-- C1 witness: flushing one staged change against a two-row working copy
rewrites exactly the staged row's proposed name. -/
theorem C1_flush_merge_witness :
    (flush (stage (initialState [rowA, rowB]) "Clients/A/img_a.png"
      "Nike_Camp_Ch_As_F_V_D") true).1 =
      some [{ rowA with proposedNewName := "Nike_Camp_Ch_As_F_V_D" }, rowB] := by
  have h := C1_flush_merge
    (stage (initialState [rowA, rowB]) "Clients/A/img_a.png" "Nike_Camp_Ch_As_F_V_D")
    [rowA, rowB] (by decide) (by decide) (by decide)
  rw [h]
  decide

theorem fullPath_setIf (r : Record) (k v : String) :
    ((if r.fullPath == k then { r with proposedNewName := v } else r)).fullPath
      = r.fullPath := by
  by_cases hc : r.fullPath = k <;> simp [hc]

theorem twoFlushCycle_remote (df : List Record) (A x B y : String) :
    (twoFlushCycle df A x B y).remote =
      some (applyChange (applyChange df A x) B y) := rfl

/-- C3: flushing `{A ↦ x}` and then, in a later cycle, `{B ↦ y}` (distinct
keys, each matching a record by full path) leaves a final persisted copy in
which the `A` records still carry `x` and the `B` records carry `y`: the
second flush re-reads the `_updated` blob produced by the first, so earlier
edits are not lost. -/
theorem C3_multicycle_merge (df : List Record) (A x B y : String)
    (hA : ∃ r ∈ df, r.fullPath = A) (hB : ∃ r ∈ df, r.fullPath = B)
    (hAB : A ≠ B) :
    ((twoFlushCycle df A x B y).remote).isSome = true ∧
    ∀ r ∈ ((twoFlushCycle df A x B y).remote).getD [],
      (r.fullPath = A → r.proposedNewName = x) ∧
      (r.fullPath = B → r.proposedNewName = y) := by
  rw [twoFlushCycle_remote]
  refine ⟨rfl, ?_⟩
  intro r hr
  rw [Option.getD_some] at hr
  rw [applyChange_pos df A x hA] at hr
  have hB' : ∃ r' ∈ df.map (fun r =>
      if r.fullPath == A then { r with proposedNewName := x } else r),
      r'.fullPath = B := by
    obtain ⟨rb, hrb, hfp⟩ := hB
    exact ⟨_, List.mem_map_of_mem _ hrb, by rw [fullPath_setIf]; exact hfp⟩
  rw [applyChange_pos _ B y hB', List.map_map] at hr
  obtain ⟨r0, hr0, rfl⟩ := List.mem_map.mp hr
  constructor
  · intro h1
    have h0 : r0.fullPath = A := by
      rw [Function.comp_apply, fullPath_setIf, fullPath_setIf] at h1
      exact h1
    have hcond : ¬((({ r0 with proposedNewName := x } : Record).fullPath == B) = true) := by
      simp only [beq_iff_eq]
      show ¬(r0.fullPath = B)
      rw [h0]
      exact hAB
    simp only [Function.comp_apply]
    rw [if_pos (beq_iff_eq.mpr h0), if_neg hcond]
  · intro h2
    have h0 : r0.fullPath = B := by
      rw [Function.comp_apply, fullPath_setIf, fullPath_setIf] at h2
      exact h2
    have hneA : ¬((r0.fullPath == A) = true) := by
      simp only [beq_iff_eq]
      rw [h0]
      exact fun hE => hAB hE.symm
    simp only [Function.comp_apply]
    rw [if_neg hneA, if_pos (beq_iff_eq.mpr h0)]

/-- C3 witness: the two-cycle scenario on two concrete rows ends with both
staged values present in the final persisted copy. -/
theorem C3_multicycle_merge_witness :
    ((twoFlushCycle [rowA, rowB] "Clients/A/img_a.png" "X1"
      "Clients/B/img_b.png" "Y1").remote).isSome = true ∧
    ∀ r ∈ ((twoFlushCycle [rowA, rowB] "Clients/A/img_a.png" "X1"
      "Clients/B/img_b.png" "Y1").remote).getD [],
      (r.fullPath = "Clients/A/img_a.png" → r.proposedNewName = "X1") ∧
      (r.fullPath = "Clients/B/img_b.png" → r.proposedNewName = "Y1") :=
  C3_multicycle_merge [rowA, rowB] "Clients/A/img_a.png" "X1"
    "Clients/B/img_b.png" "Y1" (by decide) (by decide) (by decide)

/-- C4: a pending entry whose key matches no record's full path falls back
to an exact match on original name; if that too matches nothing, the merge
leaves the dataset completely unchanged for that entry — same rows, no new
row, and (being a total function) no error. -/
theorem C4_unknown_key_noop (df : List Record) (k v : String)
    (hfp : ∀ r ∈ df, r.fullPath ≠ k) :
    applyChange df k v = df.map (fun r =>
      if r.originalName == k then { r with proposedNewName := v } else r) ∧
    ((∀ r ∈ df, r.originalName ≠ k) →
      applyChange df k v = df ∧ applyPendingChanges df [(k, v)] = df) := by
  refine ⟨applyChange_neg df k v hfp, fun hon => ?_⟩
  have h1 : applyChange df k v = df := by
    rw [applyChange_neg df k v hfp]
    have hpt : ∀ r ∈ df,
        (if r.originalName == k then { r with proposedNewName := v } else r) = r := by
      intro r hr
      rw [if_neg]
      simp [hon r hr]
    rw [List.map_eq_map_iff.mpr (by intro r hr; rw [hpt r hr]), List.map_id']
  exact ⟨h1, h1⟩

/-- C4 witness: staging a key that matches neither column leaves the
two-row dataset untouched. -/
theorem C4_unknown_key_noop_witness :
    applyChange [rowA, rowB] "no/such/path.png" "Zed" = [rowA, rowB] ∧
    applyPendingChanges [rowA, rowB] [("no/such/path.png", "Zed")] = [rowA, rowB] :=
  (C4_unknown_key_noop [rowA, rowB] "no/such/path.png" "Zed" (by decide)).2 (by decide)

/-- C9: the merge is a mask assignment — when the staged key matches some
full path, every record with that full path gets the new proposed name, and
on the original-name fallback every record with that original name does;
never only the first match. -/
theorem C9_duplicate_key_all_rows (df : List Record) (k v : String) :
    ((∃ r ∈ df, r.fullPath = k) → applyChange df k v = df.map (fun r =>
      if r.fullPath == k then { r with proposedNewName := v } else r)) ∧
    ((∀ r ∈ df, r.fullPath ≠ k) → applyChange df k v = df.map (fun r =>
      if r.originalName == k then { r with proposedNewName := v } else r)) :=
  ⟨applyChange_pos df k v, applyChange_neg df k v⟩

/-- C9 witness: two rows sharing one full path are both rewritten by a
single staged change. -/
theorem C9_duplicate_key_all_rows_witness :
    applyChange [rowDup1, rowDup2] "Clients/D/dup.png" "Adidas_C_Ch_As_F_V_D" =
      [{ rowDup1 with proposedNewName := "Adidas_C_Ch_As_F_V_D" },
       { rowDup2 with proposedNewName := "Adidas_C_Ch_As_F_V_D" }] := by
  have h := (C9_duplicate_key_all_rows [rowDup1, rowDup2] "Clients/D/dup.png"
    "Adidas_C_Ch_As_F_V_D").1 (by decide)
  rw [h]
  decide

/-- C6: the resolver normalises backslashes to slashes, strips surrounding
slashes, splits on `/`, and case-insensitively searches for the base
segment sequence as a contiguous slice: the remaining segment list is
always a tail of the full segment list, is the whole list when the base
never occurs, and on the spec's example equals `["Ads", "img1.png"]`
(also with Windows-style backslash delimiters). -/
theorem C6_path_prefix_strip :
    (∀ raw base, ∃ pre, pathSegments raw = pre ++ relativeSegments raw base) ∧
    (∀ raw base,
      (∀ i, i < (pathSegments raw).length →
        (((pathSegments raw).map lowerStr).drop i).take (base.map lowerStr).length
          ≠ base.map lowerStr) →
      relativeSegments raw base = pathSegments raw) ∧
    relativeSegments "Cog Culture Repository/Clients/Aarize Group/Ads/img1.png"
      baseSegments = ["Ads", "img1.png"] ∧
    relativeSegments "\\Cog Culture Repository\\Clients\\Aarize Group\\Ads\\img1.png"
      baseSegments = ["Ads", "img1.png"] := by
  refine ⟨?_, ?_, by decide, by decide⟩
  · intro raw base
    simp only [relativeSegments]
    rcases hfs : findStart ((pathSegments raw).map lowerStr) (base.map lowerStr)
      with _ | j
    · exact ⟨[], rfl⟩
    · exact ⟨(pathSegments raw).take j, (List.take_append_drop j _).symm⟩
  · intro raw base hno
    simp only [relativeSegments, findStart]
    have hfind : (List.range ((pathSegments raw).map lowerStr).length).find?
        (fun i => (((pathSegments raw).map lowerStr).drop i).take
          (base.map lowerStr).length == base.map lowerStr) = none := by
      rw [List.find?_eq_none]
      intro i hi
      rw [List.mem_range, List.length_map] at hi
      simp only [beq_iff_eq]
      exact hno i hi
    rw [hfind]

/-- C6 witness: a path in which the base sequence never occurs is kept
whole by the defensive fallback. -/
theorem C6_path_prefix_strip_witness :
    relativeSegments "Ads/img1.png" baseSegments = pathSegments "Ads/img1.png" :=
  C6_path_prefix_strip.2.1 "Ads/img1.png" baseSegments (by decide)

theorem padTo7_getD (p : List String) (i : Nat) :
    (padTo7 p).getD i "" = p.getD i "" := by
  unfold padTo7
  rw [List.getD_eq_getElem?_getD, List.getD_eq_getElem?_getD]
  rcases Nat.lt_or_ge i p.length with h | h
  · rw [List.getElem?_append_left h]
  · rw [List.getElem?_append_right h, List.getElem?_replicate,
      List.getElem?_eq_none_iff.mpr h]
    split <;> rfl

theorem getD_take_lt (l : List String) (n i : Nat) (h : i < n) :
    (l.take n).getD i "" = l.getD i "" := by
  rw [List.getD_eq_getElem?_getD, List.getD_eq_getElem?_getD,
    List.getElem?_take_of_lt h]

theorem range_map_getD (f : Nat → String) (n i : Nat) (h : i < n) :
    ((List.range n).map f).getD i "" = f i := by
  rw [List.getD_eq_getElem _ _ (by simpa using h), List.getElem_map,
    List.getElem_range]

/-- C8 counterexample: the code's editability test strips whitespace before
the case-insensitive comparison, so the segment `"Brand "` (trailing space)
is editable and is replaced by the user's input, while the claim's plain
case-insensitive equality would leave it locked. -/
theorem C8_counterexample :
    isEditable "Brand " "Brand" = true ∧
    claimEditable "Brand " "Brand" = false ∧
    newProposed "Brand _Camp_Ch_As_F_V_D" (fun _ => "EDIT")
      = "EDIT_Camp_Ch_As_F_V_D" ∧
    newProposedClaimed "Brand _Camp_Ch_As_F_V_D" (fun _ => "EDIT")
      = "Brand _Camp_Ch_As_F_V_D" := by
  decide

/-- C8 (amended): the staged name is the underscore-join of exactly 7 parts
built from the first 7 underscore segments (padded with empty strings);
segments past the 7th never influence the staged value; a position takes
the user's input exactly when its segment, after whitespace stripping, is
case-insensitively equal to its positional field name, and keeps the
current segment otherwise. -/
theorem C8_edit_truncation (cn : String) (u : Nat → String) :
    (editedParts cn u).length = 7 ∧
    newProposed cn u = String.intercalate "_" (editedParts cn u) ∧
    (∀ i, i < 7 → (editedParts cn u).getD i "" =
      (if isEditable ((splitChar '_' cn).getD i "") (fields.getD i "") then u i
       else (splitChar '_' cn).getD i "")) ∧
    (∀ cn2, (splitChar '_' cn).take 7 = (splitChar '_' cn2).take 7 →
      newProposed cn u = newProposed cn2 u) := by
  refine ⟨?_, rfl, ?_, ?_⟩
  · simp [editedParts]
  · intro i hi
    simp only [editedParts]
    rw [range_map_getD _ 7 i hi, padTo7_getD]
  · intro cn2 h
    have hgd : ∀ i, i < 7 →
        (splitChar '_' cn).getD i "" = (splitChar '_' cn2).getD i "" := by
      intro i hi
      have h1 : ((splitChar '_' cn).take 7).getD i ""
          = ((splitChar '_' cn2).take 7).getD i "" := by rw [h]
      rwa [getD_take_lt _ _ _ hi, getD_take_lt _ _ _ hi] at h1
    unfold newProposed
    congr 1
    simp only [editedParts]
    refine List.map_eq_map_iff.mpr ?_
    intro i hi
    rw [List.mem_range] at hi
    rw [padTo7_getD, padTo7_getD, hgd i hi]

/-- C8 witness: two extra trailing segments are silently dropped — the
staged value equals the one computed from the first seven segments alone. -/
theorem C8_edit_truncation_witness :
    newProposed "Brand_Camp_Ch_As_F_V_D_EXTRA1_EXTRA2" (fun _ => "Nike")
      = newProposed "Brand_Camp_Ch_As_F_V_D" (fun _ => "Nike") :=
  (C8_edit_truncation "Brand_Camp_Ch_As_F_V_D_EXTRA1_EXTRA2"
    (fun _ => "Nike")).2.2.2 "Brand_Camp_Ch_As_F_V_D" (by decide)

/-- C2 witness: a row whose proposed name still starts with the literal
segment `Brand` is flagged by the detector. -/
theorem C2_placeholder_detect_witness :
    rowA ∈ detect [rowA, rowB] placeholders :=
  ((C2_placeholder_detect [rowA, rowB] placeholders).2 rowA).mpr (by decide)

/-- C5 witness: the failed flush on a concrete session leaves its single
pending change in place and returns the sentinel. -/
theorem C5_upload_failure_atomic_witness :
    (flush (stage (initialState [rowA]) "Clients/A/img_a.png" "N1") false).1 = none ∧
    ((flush (stage (initialState [rowA]) "Clients/A/img_a.png" "N1") false).2).pendingChanges
      = (stage (initialState [rowA]) "Clients/A/img_a.png" "N1").pendingChanges ∧
    (saveAllHandler (stage (initialState [rowA]) "Clients/A/img_a.png" "N1") false).pendingChanges
      = (stage (initialState [rowA]) "Clients/A/img_a.png" "N1").pendingChanges ∧
    (saveAllHandler (stage (initialState [rowA]) "Clients/A/img_a.png" "N1") true).pendingChanges
      = [] :=
  C5_upload_failure_atomic (stage (initialState [rowA]) "Clients/A/img_a.png" "N1")
